import Mathlib

/-!
Verification of the meta-matter front-matter extractor (src/index.js).

JavaScript strings are modelled as `List Char` (one element per UTF-16 code
unit; all inputs used here are BMP-only).  A JS value that may be `undefined`
is modelled with `Option`.  Functions that can `throw` return `Except Str _`
carrying the error message.  Each definition is a direct translation of the
function of the same name in src/index.js; line numbers refer to that file.
-/

abbrev Str := List Char

/-- Characters matched by the ECMAScript regular-expression class `\s`
(WhiteSpace and LineTerminator), used by the `/^[^\s]$/` test at
src/index.js lines 49 and 122 and by `String.prototype.trim`. -/
def jsWhitespace (c : Char) : Bool :=
  let n := c.toNat
  n = 9 || n = 10 || n = 11 || n = 12 || n = 13 || n = 32 || n = 0xA0 ||
  n = 0x1680 || (0x2000 ≤ n && n ≤ 0x200A) || n = 0x2028 || n = 0x2029 ||
  n = 0x202F || n = 0x205F || n = 0x3000 || n = 0xFEFF

/-- JS `String.prototype.trim`, leading part. -/
def jsTrimStart (s : Str) : Str := s.dropWhile jsWhitespace

/-- JS `String.prototype.trim`, trailing part. -/
def jsTrimEnd (s : Str) : Str := (s.reverse.dropWhile jsWhitespace).reverse

/-- JS `String.prototype.trim` (used at src/index.js lines 59-61, 219). -/
def jsTrim (s : Str) : Str := jsTrimEnd (jsTrimStart s)

/-- JS `String.prototype.toLowerCase`, per-character (ASCII range; the inputs
lower-cased by the library are language tags). -/
def jsToLower (s : Str) : Str := s.map Char.toLower

/-- JS `str.substr(start)` for a non-negative start. -/
def substrFrom (s : Str) (start : Nat) : Str := s.drop start

/-- JS `str.substr(start, len)` for non-negative arguments. -/
def substrLen (s : Str) (start len : Nat) : Str := (s.drop start).take len

/-- Search loop behind JS `String.prototype.indexOf`: first offset (counted
from `i`) at which `pat` occurs in `l`. -/
def indexOfAux (pat : Str) : Str → Nat → Option Nat
  | [], i => if pat = [] then some i else none
  | c :: rest, i =>
    if pat <+: (c :: rest) then some i else indexOfAux pat rest (i + 1)

/-- JS `s.indexOf(pat, start)` returning `none` for `-1`
(src/index.js lines 38-39, 111-112). -/
def indexOfFrom (s pat : Str) (start : Nat) : Option Nat :=
  indexOfAux pat (s.drop start) start

/-- Strict-mode ambiguity guard shared by the header and footer checks: JS
`str[pos] !== '\n' && str[pos] === delim[delim.length-1]`
(src/index.js lines 35-36, 45, 108-109, 118).  Out-of-range access yields
`undefined`, modelled by `none`. -/
def guardCond (str delim : Str) (pos : Nat) : Bool :=
  !(str.get? pos == some '\n') && (str.get? pos == delim.get? (delim.length - 1))

/-- Strict-mode scan of the rest of the footer line, the `while` loop of
src/index.js lines 48-53 and 121-126: starting at absolute position `i`
(where `l` is the document suffix from `i`), advance until a newline or the
end, failing on any non-whitespace character. -/
def scanLineAux : Str → Nat → Option Nat
  | [], i => some i
  | c :: rest, i =>
    if c = '\n' then some i
    else if !(jsWhitespace c) then none
    else scanLineAux rest (i + 1)

/-- Result of a successful detection: the metadata span `[dataStart, dataEnd)`
and the offset at which the body begins. -/
structure Detection where
  dataStart : Nat
  dataEnd : Nat
  bodyStart : Nat
deriving DecidableEq, Repr

/-- The front-matter detector: the condition chain shared by `matter`
(src/index.js lines 32-57) and `matter.test` (lines 105-128).
`none` is the Absent outcome. -/
def detect (str header footer : Str) (strict : Bool) : Option Detection :=
  -- line 32: front matter must start from the first byte
  if substrLen str 0 header.length ≠ header then none
  -- lines 34-36 / 107-109: header ambiguity guard (strict mode only)
  else if strict && decide (header.length < str.length) &&
          guardCond str header header.length then none
  else
    -- line 38 / 111: metadata starts after the first newline
    match indexOfFrom str ['\n'] header.length with
    | none => none
    | some dataStart =>
      -- line 39 / 112: footer search
      match indexOfFrom str ('\n' :: footer) dataStart with
      | none => none
      | some dataEnd =>
        let bodyStart0 := dataEnd + 1 + footer.length
        -- lines 44-53 / 117-126: footer ambiguity guard (strict mode only)
        if strict && decide (bodyStart0 < str.length) then
          if guardCond str footer bodyStart0 then none
          else
            match scanLineAux (str.drop bodyStart0) bodyStart0 with
            | none => none
            | some b1 =>
              -- lines 55-57: absorb a single following newline
              some ⟨dataStart, dataEnd,
                    if str.get? b1 == some '\n' then b1 + 1 else b1⟩
        else
          some ⟨dataStart, dataEnd,
                if str.get? bodyStart0 == some '\n' then bodyStart0 + 1
                else bodyStart0⟩

/-- Byte-order-mark removal of `formatString` (src/index.js lines 182-185):
`str.charCodeAt(0) === 0xFEFF`. -/
def stripBOM (s : Str) : Str :=
  match s with
  | c :: rest => if c.toNat = 0xFEFF then rest else c :: rest
  | [] => []

/-- Error-message prefixing of `message` (src/index.js lines 227-229). -/
def errMsg (s : String) : Str := ("[matter]: " ++ s).toList

/-- JS `formatString` (src/index.js lines 178-187): `none` models a
non-string first argument. -/
def formatString : Option Str → Except Str Str
  | none => .error (errMsg "The first argument of matter() must be of type String.")
  | some s => .ok (stripBOM s)

/-- An element of a `delims` array: `null`/`undefined`, a string, or some
other (non-string, non-null) value. -/
inductive DelimElem
  | null
  | str (s : Str)
  | other
deriving DecidableEq, Repr

/-- The `delims` option as supplied by the caller. -/
inductive DelimsOpt
  | absent
  | str (s : Str)
  | arr (xs : List DelimElem)
  | other
deriving DecidableEq, Repr

/-- JS coercion `delims = [delims]` when the option is not an array
(src/index.js lines 190-192). -/
def delimsAsArray : DelimsOpt → List DelimElem
  | .arr xs => xs
  | .str s => [.str s]
  | .absent => [.null]
  | .other => [.other]

/-- JS array indexing `delims[i]`: out-of-range is `undefined`, which behaves
like `null` for every use below. -/
def elemAt (xs : List DelimElem) (i : Nat) : DelimElem :=
  (xs.get? i).getD .null

/-- Value assigned to `delims[0]` at src/index.js lines 193-194. -/
def delimsResolve0 (xs : List DelimElem) : DelimElem :=
  if elemAt xs 0 ≠ DelimElem.null then elemAt xs 0
  else if elemAt xs 1 ≠ DelimElem.null then elemAt xs 1
  else DelimElem.str ("---".toList)

/-- Value assigned to `delims[1]` at src/index.js lines 195-196; it reads
`delims[0]` after the first assignment, hence the `delimsResolve0` fallback. -/
def delimsResolve1 (xs : List DelimElem) : DelimElem :=
  if elemAt xs 1 ≠ DelimElem.null then elemAt xs 1
  else if delimsResolve0 xs ≠ DelimElem.null then delimsResolve0 xs
  else DelimElem.str ("---".toList)

/-- Return value of JS `formatDelimiters` (src/index.js lines 189-204):
`none` models both the `nothrow` null return and the thrown error (the caller
distinguishes them). -/
def formatDelimitersRes (d : DelimsOpt) : Option (Str × Str) :=
  let xs := delimsAsArray d
  match delimsResolve0 xs, delimsResolve1 xs with
  | .str h, .str f => some (h, f)
  | _, _ => none

/-- JS array element assignment `xs[i] = v` for `i ≤ xs.length` (the only
case reached here): replace in place, extending by one slot if `i = length`. -/
def setExtend (xs : List DelimElem) (i : Nat) (v : DelimElem) : List DelimElem :=
  xs.take i ++ v :: xs.drop (i + 1)

/-- Contents of the caller's `delims` array after `formatDelimiters` ran: the
assignments of src/index.js lines 193-196 mutate the array in place. -/
def formatDelimitersArrayAfter (xs : List DelimElem) : List DelimElem :=
  setExtend (setExtend xs 0 (delimsResolve0 xs)) 1 (delimsResolve1 xs)

/-- A JavaScript value produced by a parser (enough structure for the
properties proved here; `null` is the significant constructor). -/
inductive JsValue
  | null
  | bool (b : Bool)
  | num (n : Int)
  | str (s : Str)
deriving DecidableEq, Repr

/-- Configuration object passed to a parser at src/index.js line 71:
`{loose: opts.loose}`. -/
structure ParseCtx where
  loose : Bool
deriving DecidableEq, Repr

/-- A parser function value: receives the trimmed metadata text and the
configuration object, returns an arbitrary value. -/
def FmParser := Str → ParseCtx → JsValue

/-- An entry of a caller-supplied `parsers` mapping: a function, or a
non-function value together with its JS truthiness. -/
inductive PEntry
  | fn (f : FmParser)
  | nonFn (truthy : Bool)

/-- The `parsers` option: absent/null, a single function, or a mapping from
language tags to entries. -/
inductive ParsersOpt
  | absent
  | fn (f : FmParser)
  | map (entries : List (Str × PEntry))

/-- The `lang` option: absent/null, a string, or a non-string value. -/
inductive LangOpt
  | absent
  | str (s : Str)
  | other
deriving DecidableEq, Repr

/-- The options object as supplied by the caller.  `loose` records the JS
truthiness of the supplied `loose` value. -/
structure OptsIn where
  loose : Bool
  lang : LangOpt
  delims : DelimsOpt
  parsers : ParsersOpt

/-- Options after `formatOptions` normalized them. -/
structure OptsNorm where
  loose : Bool
  lang : Str
  delims : Str × Str
  parsers : ParsersOpt

/-- Tail of JS `formatOptions` after the `lang` type check passed with string
value `s` (src/index.js lines 219-223). -/
def formatOptionsWithLang (o : OptsIn) (s : Str) : Except Str OptsNorm :=
  match formatDelimitersRes o.delims with
  | none => .error (errMsg "The option \"delims\" is invalid.")
  | some dl => .ok ⟨o.loose, jsToLower (jsTrim s), dl, o.parsers⟩

/-- JS `formatOptions` (src/index.js lines 206-224): default record for a
missing options argument, otherwise normalize `lang` (defaulting to
`"yaml"`, then requiring a string), `delims` and `loose`. -/
def formatOptions : Option OptsIn → Except Str OptsNorm
  | none => .ok ⟨false, "yaml".toList, ("---".toList, "---".toList), .absent⟩
  | some o =>
    match o.lang with
    | .other => .error (errMsg "The option \"lang\" must be a string.")
    | .absent => formatOptionsWithLang o ("yaml".toList)
    | .str s => formatOptionsWithLang o s

/-- Caller-visible state of the options object after `formatOptions`
completed: the assignments at src/index.js lines 215-222 write the normalized
values back into the caller's object, and line 220 replaces the `delims`
field by the (mutated, or freshly created) array.  `none` when the call threw
partway. -/
def formatOptionsAfter (o : OptsIn) : Option OptsIn :=
  match formatOptions (some o) with
  | .error _ => none
  | .ok n =>
    some ⟨n.loose, .str n.lang,
          .arr (formatDelimitersArrayAfter (delimsAsArray o.delims)), n.parsers⟩

/-- JS object lookup `m[k]` on a parsers mapping. -/
def lookupEntry (m : List (Str × PEntry)) (k : Str) : Option PEntry :=
  (m.find? (fun p => p.1 == k)).map Prod.snd

/-- Parser resolution of src/index.js lines 62-74: a function override wins;
otherwise a truthy mapping entry is used (and must be a function, else the
`No parser found` error — modelled by `none`); otherwise the shared registry
`matter.parsers` is consulted. -/
def resolveParse (parsers : ParsersOpt) (registry : Str → Option FmParser)
    (lang : Str) : Option FmParser :=
  match parsers with
  | .fn f => some f
  | .map m =>
    match lookupEntry m lang with
    | some (.fn f) => some f
    | some (.nonFn true) => none
    | some (.nonFn false) => registry lang
    | none => registry lang
  | .absent => registry lang

/-- Result object of `matter` (src/index.js line 22). -/
structure MatterResult where
  src : Str
  data : JsValue
  body : Str
deriving DecidableEq, Repr

/-- JS `matter` (src/index.js lines 18-79).  The mutable shared registry
`matter.parsers` is passed explicitly.  A `none` first argument models a
non-string value, which `formatString` rejects. -/
def matter (str? : Option Str) (optsIn : Option OptsIn)
    (registry : Str → Option FmParser) : Except Str MatterResult :=
  match formatString str? with
  | .error e => .error e
  | .ok str =>
    match formatOptions optsIn with
    | .error e => .error e
    | .ok opts =>
      let result0 : MatterResult := ⟨str, .null, str⟩
      if str = [] then .ok result0
      else
        match detect str opts.delims.1 opts.delims.2 (!opts.loose) with
        | none => .ok result0
        | some d =>
          if d.dataStart < d.dataEnd then
            let data := jsTrim (substrLen str d.dataStart (d.dataEnd - d.dataStart))
            let langTag :=
              jsToLower (jsTrim (substrLen str opts.delims.1.length
                                   (d.dataStart - opts.delims.1.length)))
            let lang := if langTag = [] then opts.lang else langTag
            match resolveParse opts.parsers registry lang with
            | some parse =>
              .ok ⟨str, parse data ⟨opts.loose⟩, substrFrom str d.bodyStart⟩
            | none =>
              .error (("[matter]: No parser found for the language: ".toList) ++ lang)
          else
            .ok ⟨str, .null, substrFrom str d.bodyStart⟩

/-- The `delims` field read by `matter.test` after the
`opts = (opts != null ? opts : {})` defaulting at src/index.js line 95. -/
def testDelimsOf : Option OptsIn → DelimsOpt
  | some o => o.delims
  | none => .absent

/-- The `loose` flag read by `matter.test` after the same defaulting. -/
def testLooseOf : Option OptsIn → Bool
  | some o => o.loose
  | none => false

/-- JS `matter.test` (src/index.js lines 91-129): `none` models a non-string
argument.  Note that `matter.test` does not call `formatString`, so no
byte-order mark is stripped here. -/
def matterTest (str? : Option Str) (optsIn : Option OptsIn) : Bool :=
  match str? with
  | none => false
  | some str =>
    if str = [] then false
    else
      match formatDelimitersRes (testDelimsOf optsIn) with
      | none => false
      | some (header, footer) =>
        (detect str header footer (!(testLooseOf optsIn))).isSome

/-- The detection phase of `matter str opts`: whether the detector locates a
front-matter block on the normalized (BOM-stripped) document, mirroring the
steps of `matter` up to and including the `detect` call. -/
def matterDetection (s : Str) (optsIn : Option OptsIn) : Except Str Bool :=
  match formatOptions optsIn with
  | .error e => .error e
  | .ok opts =>
    let str := stripBOM s
    if str = [] then .ok false
    else .ok (detect str opts.delims.1 opts.delims.2 (!opts.loose)).isSome

/-- Embedding of the anonymous callback passed to `fs.readFile` inside
`matter.readFile` (src/index.js lines 167-174), applied to the `(err,
content)` pair supplied by the file system (`content` is `undefined` on
failure).  Returns the list of invocations of the user callback made by the
handler, paired with the uncaught exception if the handler throws.  The
`result.path` assignment (an external `realpathSync` call) is reached only
after `matter` succeeds and is omitted from the modelled result shape. -/
def readFileHandler (err : Option Str) (content : Option Str)
    (optsIn : Option OptsIn) (registry : Str → Option FmParser) :
    List (Option Str × Option MatterResult) × Option Str :=
  let initialCalls : List (Option Str × Option MatterResult) :=
    match err with
    | some _ => [(err, none)]
    | none => []
  match matter content optsIn registry with
  | .error e => (initialCalls, some e)
  | .ok result => (initialCalls ++ [(err, some result)], none)

/-- Caller-visible state of the options object after `matter(str, opts)`
returned or threw: `formatString` runs first (src/index.js line 20), so a
non-string document leaves the options untouched; otherwise `formatOptions`
(line 21) mutates them. -/
def matterOptsAfter (str? : Option Str) (o : OptsIn) : Option OptsIn :=
  match str? with
  | none => some o
  | some _ => formatOptionsAfter o

/-- Whether the character at position `k` of `s` exists and is JS whitespace. -/
def wsAt (s : Str) (k : Nat) : Bool :=
  match s.get? k with
  | some c => jsWhitespace c
  | none => false

/-! Helper lemmas about the string-search primitives. -/

theorem stripBOM_eq_self {s : Str} (h : s.head? ≠ some '﻿') : stripBOM s = s := by
  cases s with
  | nil => rfl
  | cons c rest =>
    simp only [stripBOM]
    rw [if_neg]
    intro hc
    apply h
    have : c = '﻿' := by
      have := Char.ofNat_toNat c
      rw [hc] at this
      exact this.symm.trans (by decide)
    simp [this]

theorem indexOfAux_intro : ∀ (l : Str) (pat : Str) (i m : Nat),
    pat <+: l.drop m → (∀ m', m' < m → ¬ pat <+: l.drop m') →
    indexOfAux pat l i = some (i + m) := by
  intro l
  induction l with
  | nil =>
    intro pat i m h hmin
    match m with
    | 0 =>
      have : pat = [] := List.prefix_nil.mp (by simpa using h)
      simp [indexOfAux, this]
    | m' + 1 =>
      have hpat : pat = [] := List.prefix_nil.mp (by simpa using h)
      have hm := hmin 0 (Nat.succ_pos m')
      rw [List.drop_zero, hpat] at hm
      exact absurd List.nil_prefix hm
  | cons c rest ih =>
    intro pat i m h hmin
    match m with
    | 0 =>
      simp only [List.drop_zero] at h
      simp [indexOfAux, h]
    | m' + 1 =>
      have hnot : ¬ pat <+: (c :: rest) := by simpa using hmin 0 (Nat.succ_pos m')
      simp only [indexOfAux, if_neg hnot]
      have := ih pat (i + 1) m' (by simpa using h)
        (fun m'' hm'' => by simpa using hmin (m'' + 1) (Nat.succ_lt_succ hm''))
      rw [this]
      congr 1
      omega

theorem indexOfAux_elim : ∀ (l : Str) (pat : Str) (i j : Nat),
    indexOfAux pat l i = some j →
    i ≤ j ∧ pat <+: l.drop (j - i) ∧ ∀ m', m' < j - i → ¬ pat <+: l.drop m' := by
  intro l
  induction l with
  | nil =>
    intro pat i j h
    simp only [indexOfAux] at h
    split at h
    · cases h
      refine ⟨Nat.le_refl _, ?_, ?_⟩
      · simpa [*]
      · intro m' hm'; omega
    · cases h
  | cons c rest ih =>
    intro pat i j h
    simp only [indexOfAux] at h
    split at h
    · cases h
      refine ⟨Nat.le_refl _, by simpa [*], ?_⟩
      intro m' hm'; omega
    · rename_i hnot
      obtain ⟨h1, h2, h3⟩ := ih pat (i + 1) j h
      refine ⟨by omega, ?_, ?_⟩
      · have : j - i = (j - (i + 1)) + 1 := by omega
        rw [this]
        simpa using h2
      · intro m' hm'
        match m' with
        | 0 => simpa using hnot
        | m'' + 1 =>
          have : m'' < j - (i + 1) := by omega
          simpa using h3 m'' this

theorem indexOfFrom_intro {s pat : Str} {start j : Nat} (h1 : start ≤ j)
    (h2 : pat <+: s.drop j) (h3 : ∀ q, start ≤ q → q < j → ¬ pat <+: s.drop q) :
    indexOfFrom s pat start = some j := by
  unfold indexOfFrom
  have := indexOfAux_intro (s.drop start) pat start (j - start)
    (by rw [List.drop_drop]; rwa [show start + (j - start) = j by omega])
    (fun m' hm' => by
      rw [List.drop_drop]
      exact h3 (start + m') (by omega) (by omega))
  rwa [show start + (j - start) = j by omega] at this

theorem indexOfFrom_elim {s pat : Str} {start j : Nat}
    (h : indexOfFrom s pat start = some j) :
    start ≤ j ∧ pat <+: s.drop j ∧ ∀ q, start ≤ q → q < j → ¬ pat <+: s.drop q := by
  unfold indexOfFrom at h
  obtain ⟨h1, h2, h3⟩ := indexOfAux_elim _ _ _ _ h
  refine ⟨h1, ?_, ?_⟩
  · rw [List.drop_drop] at h2
    rwa [show start + (j - start) = j by omega] at h2
  · intro q hq1 hq2
    have := h3 (q - start) (by omega)
    rw [List.drop_drop] at this
    rwa [show start + (q - start) = q by omega] at this

theorem singleton_prefix_drop {a : Char} {l : Str} {m : Nat} :
    [a] <+: l.drop m ↔ l.get? m = some a := by
  have h0 : (l.drop m).get? 0 = l.get? m := by rw [List.get?_drop]; rfl
  rw [← h0]
  cases h : l.drop m with
  | nil => simp
  | cons c rest => simp [List.cons_prefix_cons, eq_comm]

theorem indexOfFrom_newline_elim {s : Str} {start j : Nat}
    (h : indexOfFrom s ['\n'] start = some j) :
    start ≤ j ∧ s.get? j = some '\n' ∧
      ∀ q, start ≤ q → q < j → s.get? q ≠ some '\n' := by
  obtain ⟨h1, h2, h3⟩ := indexOfFrom_elim h
  refine ⟨h1, singleton_prefix_drop.mp h2, ?_⟩
  intro q hq1 hq2 hc
  exact h3 q hq1 hq2 (singleton_prefix_drop.mpr hc)

theorem scanLineAux_stops : ∀ (l : Str) (i m : Nat),
    l.get? m = some '\n' →
    (∀ k, k < m → ∃ c, l.get? k = some c ∧ jsWhitespace c = true ∧ c ≠ '\n') →
    scanLineAux l i = some (i + m) := by
  intro l
  induction l with
  | nil => intro i m h _; simp at h
  | cons c rest ih =>
    intro i m h hws
    match m with
    | 0 =>
      have hc : c = '\n' := by simpa using h
      subst hc
      simp [scanLineAux]
    | m' + 1 =>
      obtain ⟨c0, hc0, hwsc0, hne⟩ := hws 0 (Nat.succ_pos m')
      have hc : c = c0 := by simpa using hc0
      subst hc
      simp only [scanLineAux, if_neg hne, hwsc0, Bool.not_true, Bool.false_eq_true,
        if_false]
      rw [show i + (m' + 1) = (i + 1) + m' by omega]
      exact ih (i + 1) m' (by simpa using h)
        (fun k hk => by simpa using hws (k + 1) (Nat.succ_lt_succ hk))

theorem scanLineAux_fails : ∀ (l : Str) (i j : Nat) (c : Char),
    l.get? j = some c → jsWhitespace c = false →
    (∀ k, k < j → ∃ c', l.get? k = some c' ∧ jsWhitespace c' = true ∧ c' ≠ '\n') →
    scanLineAux l i = none := by
  intro l
  induction l with
  | nil => intro i j c h _ _; simp at h
  | cons d rest ih =>
    intro i j c h hnws hws
    match j with
    | 0 =>
      have hc : d = c := by simpa using h
      subst hc
      have hne : d ≠ '\n' := by
        intro hd; rw [hd] at hnws; exact absurd hnws (by decide)
      simp [scanLineAux, if_neg hne, hnws]
    | j' + 1 =>
      obtain ⟨c0, hc0, hwsc0, hne⟩ := hws 0 (Nat.succ_pos j')
      have hc : d = c0 := by simpa using hc0
      subst hc
      simp only [scanLineAux, if_neg hne, hwsc0, Bool.not_true, Bool.false_eq_true,
        if_false]
      exact ih (i + 1) j' c (by simpa using h) hnws
        (fun k hk => by simpa using hws (k + 1) (Nat.succ_lt_succ hk))

theorem detect_nil (header footer : Str) (strict : Bool) :
    detect [] header footer strict = none := by
  unfold detect
  cases header with
  | nil => simp [substrLen, indexOfFrom, indexOfAux]
  | cons c t => simp [substrLen]

theorem formatOptions_some_ok {o : OptsIn} {n : OptsNorm}
    (h : formatOptions (some o) = .ok n) :
    formatDelimitersRes o.delims = some n.delims ∧ n.loose = o.loose ∧
      n.parsers = o.parsers := by
  cases hl : o.lang with
  | absent =>
    simp only [formatOptions, hl, formatOptionsWithLang] at h
    split at h
    · cases h
    · rename_i dl hdl
      cases h
      exact ⟨hdl, rfl, rfl⟩
  | str s =>
    simp only [formatOptions, hl, formatOptionsWithLang] at h
    split at h
    · cases h
    · rename_i dl hdl
      cases h
      exact ⟨hdl, rfl, rfl⟩
  | other =>
    simp only [formatOptions, hl] at h
    cases h

theorem formatOptions_test_agree {optsIn : Option OptsIn} {n : OptsNorm}
    (h : formatOptions optsIn = .ok n) :
    formatDelimitersRes (testDelimsOf optsIn) = some n.delims ∧
      testLooseOf optsIn = n.loose := by
  cases optsIn with
  | none =>
    have hn : n = ⟨false, "yaml".toList, ("---".toList, "---".toList), .absent⟩ := by
      injection h with h'
      exact h'.symm
    subst hn
    exact ⟨rfl, rfl⟩
  | some o =>
    obtain ⟨h1, h2, -⟩ := formatOptions_some_ok h
    exact ⟨h1, h2.symm⟩

theorem formatDelimitersRes_resolve {d : DelimsOpt} {hf : Str × Str}
    (h : formatDelimitersRes d = some hf) :
    delimsResolve0 (delimsAsArray d) = .str hf.1 ∧
      delimsResolve1 (delimsAsArray d) = .str hf.2 := by
  have h' : (match delimsResolve0 (delimsAsArray d), delimsResolve1 (delimsAsArray d) with
      | DelimElem.str a, DelimElem.str b => some ((a, b) : Str × Str)
      | _, _ => none) = some hf := h
  cases hr0 : delimsResolve0 (delimsAsArray d) <;>
    cases hr1 : delimsResolve1 (delimsAsArray d) <;>
      rw [hr0, hr1] at h' <;> cases h'
  exact ⟨rfl, rfl⟩

/-! Shared concrete values used to instantiate the claims. -/

/-- A registry with no entries (the theorems that use it never reach it). -/
def emptyRegistry : Str → Option FmParser := fun _ => none

/-- Options selecting loose mode only. -/
def looseOptsIn : OptsIn := ⟨true, .absent, .absent, .absent⟩

/-- Options carrying a `parsers` mapping whose `yaml` entry is a truthy
non-function value (JS: `{parsers: {yaml: true}}`). -/
def optsBadParsers : OptsIn := ⟨false, .absent, .absent, .map [("yaml".toList, .nonFn true)]⟩

/-- Options supplying a constant function parser returning `42`. -/
def optsFnParser42 : OptsIn := ⟨false, .absent, .absent, .fn (fun _ _ => JsValue.num 42)⟩

/-- Options defaulting every field (JS: `{}`). -/
def optsAllDefault : OptsIn := ⟨false, .absent, .absent, .absent⟩

/-- C5: the claim is right and the code is wrong.  The error branch of the
`fs.readFile` handler (src/index.js lines 168-170) lacks a `return`: after
reporting the failure through the callback once, the handler falls through
and calls `matter(undefined, opts)`, whose `formatString` throws — an uncaught
exception inside the file-system callback, i.e. a crash, contradicting the
claim that the failure is reported with no uncaught exception.  This theorem
evaluates the modelled handler at a failed read (`err` set, `content`
undefined): the callback is invoked once with the error, and the handler then
throws the type error. -/
theorem claim5_readFile_uncaught :
    readFileHandler (some ("ENOENT: no such file or directory, open".toList))
        none none emptyRegistry =
      ([(some ("ENOENT: no such file or directory, open".toList), none)],
       some (errMsg "The first argument of matter() must be of type String.")) := by
  rfl

/-- C10 counterexample: the caller's options object and delims array are not
left unchanged — `matter('abc', {})` writes the defaulted `lang` (and the
other normalized fields) back into the caller's object, and
`formatDelimiters(['~~~'])` extends the caller's one-element array in place
to `['~~~', '~~~']`. -/
theorem claim10_counterexample :
    matterOptsAfter (some ("abc".toList)) optsAllDefault ≠ some optsAllDefault ∧
      formatDelimitersArrayAfter [DelimElem.str ("~~~".toList)] ≠
        [DelimElem.str ("~~~".toList)] := by
  constructor
  · intro h
    have h2 : (matterOptsAfter (some ("abc".toList)) optsAllDefault).map OptsIn.lang =
        some (LangOpt.str ("yaml".toList)) := rfl
    rw [h] at h2
    exact absurd h2 (by decide)
  · decide

/-- C10 (amended): `matter` holds no cross-call state apart from the shared
registry, but it does not leave the caller's objects unchanged: on a
successful call the options object ends up holding the normalized values —
`loose` coerced to a boolean, `lang` trimmed/lower-cased (or defaulted), the
`delims` field replaced by an array whose slots 0 and 1 were overwritten in
place with the resolved header and footer (the caller's own array, extended
if shorter, when an array was passed), and `parsers` defaulted to null. -/
theorem claim10_amended (s : Str) (o : OptsIn) (n : OptsNorm)
    (h : formatOptions (some o) = .ok n) :
    matterOptsAfter (some s) o =
      some ⟨n.loose, .str n.lang,
            .arr (setExtend (setExtend (delimsAsArray o.delims) 0
                    (.str n.delims.1)) 1 (.str n.delims.2)),
            n.parsers⟩ := by
  obtain ⟨hdl, -, -⟩ := formatOptions_some_ok h
  obtain ⟨hr0, hr1⟩ := formatDelimitersRes_resolve hdl
  simp only [matterOptsAfter, formatOptionsAfter, h]
  rw [formatDelimitersArrayAfter, hr0, hr1]

/-- C10 witness: the amended statement evaluated on empty options. -/
theorem claim10_witness :
    matterOptsAfter (some ("x".toList)) optsAllDefault =
      some ⟨false, .str ("yaml".toList),
            .arr (setExtend (setExtend (delimsAsArray optsAllDefault.delims) 0
                    (.str ("---".toList))) 1 (.str ("---".toList))),
            .absent⟩ :=
  claim10_amended ("x".toList) optsAllDefault
    ⟨false, "yaml".toList, ("---".toList, "---".toList), .absent⟩ rfl

/-- C6 counterexample: a `parsers` mapping containing a non-function value
does not make `matter` raise a configuration error before detection — here
the whole call succeeds without any error, because no front-matter block
(with a non-empty metadata span) resolves to the bad entry. -/
theorem claim6_counterexample :
    matter (some ("foobar".toList)) (some optsBadParsers) emptyRegistry =
      .ok ⟨"foobar".toList, .null, "foobar".toList⟩ := by
  rfl

/-- C6 (amended): a non-string `lang` or an invalid `delims` option raises a
configuration error before any detection runs (uniformly in the input text);
a `parsers` mapping containing a non-function value raises nothing up front —
it surfaces only as the `No parser found` resolution error during extraction,
when a detected block's non-empty metadata resolves to that entry. -/
theorem claim6_amended :
    (∀ (s : Str) (o : OptsIn) (registry : Str → Option FmParser),
        o.lang = .other →
        matter (some s) (some o) registry =
          .error (errMsg "The option \"lang\" must be a string.")) ∧
    (∀ (s : Str) (o : OptsIn) (registry : Str → Option FmParser),
        o.lang ≠ .other → formatDelimitersRes o.delims = none →
        matter (some s) (some o) registry =
          .error (errMsg "The option \"delims\" is invalid.")) ∧
    matter (some ("---\na: b\n---\n".toList)) (some optsBadParsers) emptyRegistry =
      .error (("[matter]: No parser found for the language: ".toList) ++
        "yaml".toList) := by
  refine ⟨?_, ?_, by rfl⟩
  · intro s o reg h
    simp [matter, formatString, formatOptions, h]
  · intro s o reg h1 h2
    cases hl : o.lang with
    | other => exact absurd hl h1
    | absent => simp [matter, formatString, formatOptions, hl, formatOptionsWithLang, h2]
    | str t => simp [matter, formatString, formatOptions, hl, formatOptionsWithLang, h2]

/-- C6 witness: the amended statement's first conjunct at a concrete input. -/
theorem claim6_witness :
    matter (some []) (some ⟨false, .other, .absent, .absent⟩) emptyRegistry =
      .error (errMsg "The option \"lang\" must be a string.") :=
  claim6_amended.1 [] ⟨false, .other, .absent, .absent⟩ emptyRegistry rfl

/-- C7 counterexample: a parser IS invoked although the trimmed metadata span
is empty.  For `"---\n\n---\nx"` the detected raw span is `"\n"` (dataStart 3,
dataEnd 4), whose trimmed text is empty, yet the constant function parser
runs and `data` becomes `42` instead of staying null. -/
theorem claim7_counterexample :
    jsTrim (substrLen ("---\n\n---\nx".toList) 3 1) = [] ∧
      matter (some ("---\n\n---\nx".toList)) (some optsFnParser42) emptyRegistry =
        .ok ⟨"---\n\n---\nx".toList, .num 42, "x".toList⟩ :=
  ⟨rfl, rfl⟩

/-- C7 (amended): when a block is detected with `dataStart = dataEnd` (header
line directly followed by the footer line) the result is Present, no parser
runs and `data` stays null; in general a parser is invoked exactly when
`dataStart < dataEnd`, i.e. when the raw metadata span is non-empty — the
trimmed text may still be empty and is passed to the parser as-is. -/
theorem claim7_amended :
    (∀ (s : Str) (optsIn : Option OptsIn) (registry : Str → Option FmParser)
        (opts : OptsNorm) (d : Detection),
        formatOptions optsIn = .ok opts →
        detect (stripBOM s) opts.delims.1 opts.delims.2 (!opts.loose) = some d →
        d.dataStart = d.dataEnd →
        matter (some s) optsIn registry =
          .ok ⟨stripBOM s, .null, substrFrom (stripBOM s) d.bodyStart⟩) ∧
    (∀ (s : Str) (optsIn : Option OptsIn) (registry : Str → Option FmParser)
        (opts : OptsNorm) (f : FmParser) (d : Detection),
        formatOptions optsIn = .ok opts → opts.parsers = .fn f →
        detect (stripBOM s) opts.delims.1 opts.delims.2 (!opts.loose) = some d →
        matter (some s) optsIn registry =
          .ok ⟨stripBOM s,
               if d.dataStart < d.dataEnd then
                 f (jsTrim (substrLen (stripBOM s) d.dataStart
                      (d.dataEnd - d.dataStart))) ⟨opts.loose⟩
               else .null,
               substrFrom (stripBOM s) d.bodyStart⟩) := by
  constructor
  · intro s optsIn reg opts d hfo hdet heq
    have hnil : stripBOM s ≠ [] := by
      intro hc
      rw [hc, detect_nil] at hdet
      cases hdet
    simp only [matter, formatString, hfo, if_neg hnil, hdet, heq, Nat.lt_irrefl,
      if_false]
  · intro s optsIn reg opts f d hfo hp hdet
    have hnil : stripBOM s ≠ [] := by
      intro hc
      rw [hc, detect_nil] at hdet
      cases hdet
    simp only [matter, formatString, hfo, if_neg hnil, hdet, hp, resolveParse]
    split
    · rfl
    · rfl

/-- C7 witness: the first conjunct at a header line directly followed by the
footer line. -/
theorem claim7_witness :
    matter (some ("---\n---\nbody".toList)) none emptyRegistry =
      .ok ⟨stripBOM ("---\n---\nbody".toList), .null,
           substrFrom (stripBOM ("---\n---\nbody".toList)) 8⟩ :=
  claim7_amended.1 ("---\n---\nbody".toList) none emptyRegistry
    ⟨false, "yaml".toList, ("---".toList, "---".toList), .absent⟩ ⟨3, 3, 8⟩
    rfl rfl rfl

/-- C2 counterexample: detection is not rejected *exactly* when the
strict-mode header guard condition holds.  `"---x"` starts with the header
`"---"` and is longer than it, the character after the header is neither a
newline nor a repeat of the header's last character (guard condition false),
yet detection still rejects (for lack of any newline), so `test` is false. -/
theorem claim2_counterexample :
    substrLen ("---x".toList) 0 3 = "---".toList ∧
      3 < ("---x".toList).length ∧
      guardCond ("---x".toList) ("---".toList) 3 = false ∧
      matterTest (some ("---x".toList)) none = false := by
  decide

/-- C2 (amended): in strict mode, for every text that starts with the header
delimiter and is longer than it, detection rejects (Absent) *whenever* the
character immediately following the header is not a newline and equals the
header's own last character (detection may also reject for other reasons);
the guard is not applied in loose mode — in particular `"----\n---"` with
header `"---"` is rejected by `test` in strict mode but accepted in loose
mode. -/
theorem claim2_amended :
    (∀ (str h f : Str), substrLen str 0 h.length = h → h.length < str.length →
        guardCond str h h.length = true → detect str h f true = none) ∧
    matterTest (some ("----\n---".toList)) none = false ∧
    matterTest (some ("----\n---".toList)) (some looseOptsIn) = true := by
  refine ⟨?_, by decide, by decide⟩
  intro str h f hpre hlen hg
  unfold detect
  rw [if_neg (by simp [hpre])]
  rw [if_pos (by simp [hlen, hg])]

/-- C2 witness: the amended guard statement evaluated at `"----\n---"`. -/
theorem claim2_witness :
    guardCond ("----\n---".toList) ("---".toList) 3 = true ∧
      detect ("----\n---".toList) ("---".toList) ("---".toList) true = none :=
  ⟨by decide, claim2_amended.1 ("----\n---".toList) ("---".toList) ("---".toList)
    (by decide) (by decide) (by decide)⟩

/-- C9 counterexample: prefixing a byte-order mark changes the presence-check
outcome — `matter.test` does not strip the mark, so a document whose
unprefixed form is detected yields `false` once prefixed. -/
theorem claim9_counterexample :
    matterTest (some ("﻿---\na\n---".toList)) none = false ∧
      matterTest (some ("---\na\n---".toList)) none = true := by
  decide

/-- C9 (amended): prefixing a single byte-order mark leaves the `matter`
extraction result unchanged (for documents not already starting with a mark),
because `formatString` strips it; but the presence check does not strip it:
for any header that is non-empty and does not itself start with the mark,
`test` on the prefixed document is always false. -/
theorem claim9_amended :
    (∀ (s : Str) (optsIn : Option OptsIn) (registry : Str → Option FmParser),
        s.head? ≠ some '﻿' →
        matter (some ('﻿' :: s)) optsIn registry =
          matter (some s) optsIn registry) ∧
    (∀ (s : Str) (optsIn : Option OptsIn) (header footer : Str),
        formatDelimitersRes (testDelimsOf optsIn) = some (header, footer) →
        header ≠ [] → header.head? ≠ some '﻿' →
        matterTest (some ('﻿' :: s)) optsIn = false) := by
  constructor
  · intro s optsIn reg h
    have h1 : stripBOM ('﻿' :: s) = s := by simp [stripBOM]
    have h2 : stripBOM s = s := stripBOM_eq_self h
    simp only [matter, formatString, h1, h2]
  · intro s optsIn header footer hd hne hh
    have hpre : substrLen ('﻿' :: s) 0 header.length ≠ header := by
      cases hH : header with
      | nil => exact absurd hH hne
      | cons c t =>
        intro hEq
        apply hh
        rw [hH]
        simp only [substrLen, List.drop_zero, List.length_cons, List.take_succ_cons]
          at hEq
        have := List.head_eq_of_cons_eq hEq
        simp [hH, ← this]
    simp only [matterTest, hd]
    rw [if_neg (by simp)]
    unfold detect
    rw [if_pos hpre]
    rfl

/-- C9 witness: the first conjunct of the amended statement at a concrete
document. -/
theorem claim9_witness :
    matter (some ('﻿' :: "---\na\n---".toList)) none emptyRegistry =
      matter (some ("---\na\n---".toList)) none emptyRegistry :=
  claim9_amended.1 ("---\na\n---".toList) none emptyRegistry (by decide)

/-- C1 counterexample: `test` and `matter`'s detection phase disagree on a
byte-order-marked document — `matter` strips the mark and locates the block,
while `matter.test` (which never calls `formatString`) fails the header
anchor and returns false. -/
theorem claim1_counterexample :
    matterTest (some ("﻿---\na\n---".toList)) none = false ∧
      matterDetection ("﻿---\na\n---".toList) none = .ok true :=
  ⟨by decide, rfl⟩

/-- C1 (amended): for every document that does not start with a byte-order
mark, and options accepted by `formatOptions`, the presence check agrees with
the detection phase of `matter`: `test` returns true exactly when the
detector locates a block, independently of parser availability. -/
theorem claim1_amended (s : Str) (optsIn : Option OptsIn) (n : OptsNorm)
    (hbom : s.head? ≠ some '﻿')
    (hfo : formatOptions optsIn = .ok n) :
    matterTest (some s) optsIn = true ↔ matterDetection s optsIn = .ok true := by
  have hs : stripBOM s = s := stripBOM_eq_self hbom
  obtain ⟨hdl, hlo⟩ := formatOptions_test_agree hfo
  simp only [matterTest, matterDetection, hfo, hs, hdl, hlo]
  by_cases hnil : s = []
  · simp [hnil]
  · simp only [if_neg hnil]
    cases (detect s n.delims.1 n.delims.2 (!n.loose)).isSome <;> simp

/-- C1 witness: the amended agreement evaluated at a concrete document. -/
theorem claim1_witness :
    matterTest (some ("---\na\n---".toList)) none = true ↔
      matterDetection ("---\na\n---".toList) none = .ok true :=
  claim1_amended ("---\na\n---".toList) none
    ⟨false, "yaml".toList, ("---".toList, "---".toList), .absent⟩ (by decide) rfl

/-- C4: for every string input, whenever `matter` returns a result, `body` is
a suffix of `src` and no longer than it, and if the detection phase located
no block then `body` equals `src` and `data` is null. -/
theorem claim4_invariants (s : Str) (optsIn : Option OptsIn)
    (registry : Str → Option FmParser) (r : MatterResult)
    (h : matter (some s) optsIn registry = .ok r) :
    r.body <:+ r.src ∧ r.body.length ≤ r.src.length ∧
      (matterDetection s optsIn = .ok false → r.body = r.src ∧ r.data = .null) := by
  simp only [matter, formatString] at h
  cases hfo : formatOptions optsIn with
  | error e =>
    simp only [hfo] at h
    exact Except.noConfusion h
  | ok opts =>
    simp only [hfo] at h
    by_cases hnil : stripBOM s = []
    · rw [if_pos hnil] at h
      cases h
      exact ⟨List.suffix_rfl, Nat.le_refl _, fun _ => ⟨rfl, rfl⟩⟩
    · rw [if_neg hnil] at h
      cases hdet : detect (stripBOM s) opts.delims.1 opts.delims.2 (!opts.loose) with
      | none =>
        simp only [hdet] at h
        injection h with h2
        subst h2
        exact ⟨List.suffix_rfl, Nat.le_refl _, fun _ => ⟨rfl, rfl⟩⟩
      | some d =>
        simp only [hdet] at h
        have hcontra : matterDetection s optsIn = .ok true := by
          simp [matterDetection, hfo, hnil, hdet]
        have hbody : r.src = stripBOM s ∧ r.body = substrFrom (stripBOM s) d.bodyStart := by
          split at h
          · split at h
            · injection h with h2
              subst h2
              exact ⟨rfl, rfl⟩
            · exact Except.noConfusion h
          · injection h with h2
            subst h2
            exact ⟨rfl, rfl⟩
        obtain ⟨hsrc, hb⟩ := hbody
        refine ⟨?_, ?_, ?_⟩
        · rw [hsrc, hb]
          exact List.drop_suffix _ _
        · rw [hsrc, hb]
          exact List.IsSuffix.length_le (List.drop_suffix _ _)
        · intro hfalse
          rw [hcontra] at hfalse
          exact absurd (Except.ok.inj hfalse) (by decide)

/-- C4 witness: the invariants evaluated on a concrete no-front-matter
document. -/
theorem claim4_witness :
    ("xyz".toList <:+ "xyz".toList) ∧
      ("xyz".toList).length ≤ ("xyz".toList).length ∧
      (matterDetection ("xyz".toList) none = .ok false →
        "xyz".toList = "xyz".toList ∧ JsValue.null = JsValue.null) :=
  claim4_invariants ("xyz".toList) none emptyRegistry
    ⟨"xyz".toList, .null, "xyz".toList⟩ rfl

theorem wsAt_true_elim {s : Str} {k : Nat} (h : wsAt s k = true) :
    ∃ c, s.get? k = some c ∧ jsWhitespace c = true := by
  unfold wsAt at h
  cases hc : s.get? k with
  | none => rw [hc] at h; cases h
  | some c => rw [hc] at h; exact ⟨c, rfl, h⟩

theorem wsAt_false_elim {s : Str} {k : Nat} {c : Char} (hc : s.get? k = some c)
    (h : wsAt s k = false) : jsWhitespace c = false := by
  unfold wsAt at h
  rw [hc] at h
  exact h

theorem detect_reduce (str header footer : Str) (ds de : Nat) (strict : Bool)
    (hpre : substrLen str 0 header.length = header)
    (hgs : (strict && decide (header.length < str.length) &&
        guardCond str header header.length) = false)
    (hds : indexOfFrom str ['\n'] header.length = some ds)
    (hde : indexOfFrom str ('\n' :: footer) ds = some de) :
    detect str header footer strict =
      if strict && decide (de + 1 + footer.length < str.length) then
        if guardCond str footer (de + 1 + footer.length) then none
        else
          match scanLineAux (str.drop (de + 1 + footer.length))
                  (de + 1 + footer.length) with
          | none => none
          | some b1 =>
            some ⟨ds, de, if str.get? b1 == some '\n' then b1 + 1 else b1⟩
      else
        some ⟨ds, de,
              if str.get? (de + 1 + footer.length) == some '\n'
              then de + 1 + footer.length + 1 else de + 1 + footer.length⟩ := by
  unfold detect
  rw [if_neg (by simp [hpre])]
  simp only [hgs, Bool.false_eq_true, if_false, hds, hde]

/-- C3: the strict-mode footer guard behaves as specified.  Under the
hypotheses that the header anchor matched, the strict header guard did not
trigger, the metadata-start newline is at `ds` and the footer newline at
`de`, and `bodyStart = de + 1 + footer.length` is within the document:
(1) if the character at `bodyStart` is not a newline and equals the footer's
last character, strict detection rejects; (2) otherwise, with `n` the first
newline at or after `bodyStart`: if every character in `[bodyStart, n)` is
whitespace, strict detection accepts and the body begins just past that
newline (`bodyStart = n + 1`); if some character there is non-whitespace,
strict detection rejects; (3) in loose mode all of this is skipped: the body
starts at `bodyStart`, with a single immediately-following newline absorbed. -/
theorem claim3_footer_guard (str header footer : Str) (ds de : Nat)
    (hpre : substrLen str 0 header.length = header)
    (hg : guardCond str header header.length = false)
    (hds : indexOfFrom str ['\n'] header.length = some ds)
    (hde : indexOfFrom str ('\n' :: footer) ds = some de)
    (hb : de + 1 + footer.length < str.length) :
    (guardCond str footer (de + 1 + footer.length) = true →
        detect str header footer true = none) ∧
    (guardCond str footer (de + 1 + footer.length) = false →
      ∀ n, indexOfFrom str ['\n'] (de + 1 + footer.length) = some n →
        ((∀ k, de + 1 + footer.length ≤ k → k < n → wsAt str k = true) →
            detect str header footer true = some ⟨ds, de, n + 1⟩) ∧
        ((∃ k, de + 1 + footer.length ≤ k ∧ k < n ∧ wsAt str k = false) →
            detect str header footer true = none)) ∧
    detect str header footer false =
      some ⟨ds, de,
            if str.get? (de + 1 + footer.length) == some '\n'
            then de + 1 + footer.length + 1 else de + 1 + footer.length⟩ := by
  have hred := detect_reduce str header footer ds de true hpre (by simp [hg]) hds hde
  have hcond : (true && decide (de + 1 + footer.length < str.length)) = true := by
    simp [hb]
  refine ⟨?_, ?_, ?_⟩
  · intro hfg
    rw [hred, hcond, if_pos rfl, if_pos hfg]
  · intro hfg n hn
    obtain ⟨hbn, hnl, hmin⟩ := indexOfFrom_newline_elim hn
    constructor
    · intro hws
      have hsc : scanLineAux (str.drop (de + 1 + footer.length))
          (de + 1 + footer.length) = some n := by
        have := scanLineAux_stops (str.drop (de + 1 + footer.length))
          (de + 1 + footer.length) (n - (de + 1 + footer.length))
          (by rw [List.get?_drop]
              rw [show de + 1 + footer.length + (n - (de + 1 + footer.length)) = n
                by omega]
              exact hnl)
          (by intro k hk
              have h1 : wsAt str (de + 1 + footer.length + k) = true :=
                hws _ (by omega) (by omega)
              obtain ⟨c, hc, hwc⟩ := wsAt_true_elim h1
              refine ⟨c, ?_, hwc, ?_⟩
              · rw [List.get?_drop]; exact hc
              · intro hcn
                exact hmin (de + 1 + footer.length + k) (by omega) (by omega)
                  (by rw [hc, hcn]))
        rw [this]
        congr 1
        omega
      rw [hred, hcond, if_pos rfl, if_neg (by simp [hfg])]
      simp only [hsc, hnl]
      simp
    · intro hex
      have hexP : ∃ k, de + 1 + footer.length ≤ k ∧ k < n ∧ wsAt str k = false := hex
      classical
      let k0 := Nat.find hexP
      obtain ⟨hk1, hk2, hk3⟩ := Nat.find_spec hexP
      have hlt : k0 < str.length := by
        have hnlen : n < str.length := by
          obtain ⟨hh, -⟩ := List.get?_eq_some.mp hnl
          exact hh
        omega
      obtain ⟨c, hc⟩ : ∃ c, str.get? k0 = some c := by
        cases hcc : str.get? k0 with
        | none =>
          rw [List.get?_eq_none] at hcc
          omega
        | some c => exact ⟨c, rfl⟩
      have hnws : jsWhitespace c = false := wsAt_false_elim hc hk3
      have hsc : scanLineAux (str.drop (de + 1 + footer.length))
          (de + 1 + footer.length) = none := by
        apply scanLineAux_fails _ _ (k0 - (de + 1 + footer.length)) c
        · rw [List.get?_drop]
          rw [show de + 1 + footer.length + (k0 - (de + 1 + footer.length)) = k0
            by omega]
          exact hc
        · exact hnws
        · intro k hk
          have hklt : de + 1 + footer.length + k < k0 := by omega
          have hnP := Nat.find_min hexP hklt
          have hws : wsAt str (de + 1 + footer.length + k) = true := by
            by_contra hcon
            exact hnP ⟨by omega, by omega, by
              cases hv : wsAt str (de + 1 + footer.length + k) with
              | false => rfl
              | true => exact absurd hv hcon⟩
          obtain ⟨c', hc', hwc'⟩ := wsAt_true_elim hws
          refine ⟨c', ?_, hwc', ?_⟩
          · rw [List.get?_drop]; exact hc'
          · intro hcn
            exact hmin (de + 1 + footer.length + k) (by omega) (by omega)
              (by rw [hc', hcn])
      rw [hred, hcond, if_pos rfl, if_neg (by simp [hfg])]
      simp only [hsc]
  · have hredl := detect_reduce str header footer ds de false hpre (by simp) hds hde
    rw [hredl]
    rw [if_neg (by simp)]

/-- C3 witness: the all-whitespace footer-line case evaluated on
`"---\na\n--- \nBODY"`: body starts just past the newline at index 10. -/
theorem claim3_witness :
    detect ("---\na\n--- \nBODY".toList) ("---".toList) ("---".toList) true =
      some ⟨3, 5, 11⟩ :=
  ((claim3_footer_guard ("---\na\n--- \nBODY".toList) ("---".toList)
      ("---".toList) 3 5 (by decide) (by decide) (by decide) (by decide)
      (by decide)).2.1 (by decide) 10 (by decide)).1
    (by intro k h1 h2
        have hlen : ("---".toList).length = 3 := rfl
        rw [hlen] at h1
        have hk : k = 9 := by omega
        subst hk
        decide)

theorem indexOfAux_append_pat : ∀ (u : Str) (c : Char) (t w : Str) (i : Nat),
    c ∉ t → ¬ ((c :: t) <:+: u) →
    indexOfAux (c :: t) (u ++ ((c :: t) ++ w)) i = some (i + u.length) := by
  intro u
  induction u with
  | nil =>
    intro c t w i _ _
    rw [List.nil_append]
    rw [List.cons_append]
    simp only [indexOfAux]
    rw [if_pos (by rw [← List.cons_append]; exact List.prefix_append _ _)]
    simp
  | cons d u' ih =>
    intro c t w i hct hinf
    have hnot : ¬ (c :: t) <+: (d :: u') ++ ((c :: t) ++ w) := by
      intro hp
      by_cases hlen : (c :: t).length ≤ (d :: u').length
      · exact hinf (List.IsPrefix.isInfix
          (List.prefix_of_prefix_length_le hp (List.prefix_append _ _) hlen))
      · push_neg at hlen
        have hLp : (d :: u') <+: (c :: t) :=
          List.prefix_of_prefix_length_le (List.prefix_append _ _) hp
            (Nat.le_of_lt hlen)
        obtain ⟨p', hp'⟩ := hLp
        have hp'len : 0 < p'.length := by
          have hll := congrArg List.length hp'
          simp only [List.length_append] at hll
          omega
        obtain ⟨z, hz⟩ := hp
        nth_rewrite 1 [← hp'] at hz
        rw [List.append_assoc] at hz
        have hz2 : p' ++ z = (c :: t) ++ w := List.append_cancel_left hz
        obtain ⟨c0, p'', hp0⟩ : ∃ c0 p'', p' = c0 :: p'' := by
          cases p' with
          | nil => simp at hp'len
          | cons c0 p'' => exact ⟨c0, p'', rfl⟩
        subst hp0
        have hc0 : c0 = c := by
          rw [List.cons_append, List.cons_append] at hz2
          exact (List.cons.injEq _ _ _ _).mp hz2 |>.1
        have ht : t = u' ++ c0 :: p'' := by
          rw [List.cons_append] at hp'
          exact ((List.cons.injEq _ _ _ _).mp hp').2.symm
        apply hct
        rw [ht, ← hc0]
        simp
    rw [List.cons_append]
    simp only [indexOfAux]
    rw [if_neg (by rw [← List.cons_append]; exact hnot)]
    rw [show i + (d :: u').length = (i + 1) + u'.length by
      rw [List.length_cons]; omega]
    exact ih c t w (i + 1) hct (fun hi => hinf (List.infix_cons hi))

/-- C8 counterexample: metadata text `m = "---o"` is non-empty, contains no
newline (hence no newline-plus-footer), and the constant parser makes it
"parseable"; yet extracting `"---" + "\n" + m + "\n" + "---" + "\n" + "B"`
yields neither `data = parse m` nor `body = "B"`: because `m` starts with the
footer, the footer search already matches at the header's newline, the
metadata span is empty, and the strict footer guard then rejects on the `'o'`
of `m`, so the whole document comes back as body with `data = null`. -/
theorem claim8_counterexample :
    ("---o".toList ≠ []) ∧ ¬ (('\n' :: "---".toList) <:+: "---o".toList) ∧
      matter (some ("---\n---o\n---\nB".toList))
          (some ⟨false, .absent, .absent, .fn (fun s _ => JsValue.str s)⟩)
          emptyRegistry =
        .ok ⟨"---\n---o\n---\nB".toList, .null, "---\n---o\n---\nB".toList⟩ :=
  ⟨by decide, by decide, rfl⟩

/-- C8 (amended): round trip.  For any metadata text `m` that is non-empty,
does not contain newline-plus-footer, and does not begin with the footer, any
body `b`, any footer containing no newline, any parser function `f` and any
tolerance mode, extracting `header ++ "\n" ++ m ++ "\n" ++ footer ++ "\n" ++ b`
(for a document not starting with a byte-order mark) succeeds with
`body = b` and `data` equal to the parser applied to the *trimmed* metadata
text `jsTrim m` (the extractor trims the span before dispatching, so "parsing
m directly" holds up to surrounding whitespace). -/
theorem claim8_amended (header footer m b : Str) (f : FmParser) (loose : Bool)
    (registry : Str → Option FmParser)
    (hm : m ≠ [])
    (hnosub : ¬ (('\n' :: footer) <:+: m))
    (hnostart : ¬ (footer <+: m))
    (hfnl : '\n' ∉ footer)
    (hbom : (header ++ '\n' :: (m ++ '\n' :: (footer ++ '\n' :: b))).head? ≠
      some '﻿') :
    matter (some (header ++ '\n' :: (m ++ '\n' :: (footer ++ '\n' :: b))))
        (some ⟨loose, .absent, .arr [.str header, .str footer], .fn f⟩) registry =
      .ok ⟨header ++ '\n' :: (m ++ '\n' :: (footer ++ '\n' :: b)),
           f (jsTrim m) ⟨loose⟩, b⟩ := by
  set s : Str := header ++ '\n' :: (m ++ '\n' :: (footer ++ '\n' :: b)) with hs_def
  -- the document suffix after the header
  have hdropH : s.drop header.length = ('\n' :: m) ++ (('\n' :: footer) ++ ('\n' :: b)) := by
    rw [hs_def, List.drop_left]
    simp
  -- header anchor
  have hpre : substrLen s 0 header.length = header := by
    unfold substrLen
    rw [List.drop_zero, hs_def, List.take_left]
  -- the character right after the header is the first newline
  have hgetH : s.get? header.length = some '\n' := by
    have h0 : (s.drop header.length).get? 0 = s.get? header.length := by
      rw [List.get?_drop]
      rfl
    rw [← h0, hdropH]
    rfl
  have hguardH : guardCond s header header.length = false := by
    unfold guardCond
    rw [hgetH]
    simp
  -- dataStart
  have hds : indexOfFrom s ['\n'] header.length = some header.length := by
    unfold indexOfFrom
    rw [hdropH, List.cons_append]
    simp only [indexOfAux]
    rw [if_pos (List.cons_prefix_cons.mpr ⟨rfl, List.nil_prefix⟩)]
  -- dataEnd: the first newline-plus-footer occurrence is the constructed one
  have hinf : ¬ (('\n' :: footer) <:+: ('\n' :: m)) := by
    intro h
    rcases List.infix_cons_iff.mp h with hp | hi
    · exact hnostart (List.cons_prefix_cons.mp hp).2
    · exact hnosub hi
  have hde : indexOfFrom s ('\n' :: footer) header.length =
      some (header.length + (m.length + 1)) := by
    unfold indexOfFrom
    rw [hdropH]
    have hfind := indexOfAux_append_pat ('\n' :: m) '\n' footer ('\n' :: b)
      header.length hfnl hinf
    rw [hfind]
    simp
  -- the position right after the footer
  have hb0drop : s.drop (header.length + (m.length + 1) + 1 + footer.length) =
      '\n' :: b := by
    have s1 : List.drop (m.length + 1) (List.drop header.length s) =
        ('\n' :: footer) ++ ('\n' :: b) := by
      rw [hdropH]
      exact List.drop_left' (by simp)
    have s2 : List.drop (footer.length + 1)
        (List.drop (m.length + 1) (List.drop header.length s)) = '\n' :: b := by
      rw [s1]
      exact List.drop_left' (by simp)
    rw [List.drop_drop, List.drop_drop] at s2
    rw [show header.length + (m.length + 1) + 1 + footer.length =
        header.length + (m.length + 1 + (footer.length + 1)) by omega]
    exact s2
  have hgetb0 : s.get? (header.length + (m.length + 1) + 1 + footer.length) =
      some '\n' := by
    have h0 : (s.drop (header.length + (m.length + 1) + 1 + footer.length)).get? 0 =
        s.get? (header.length + (m.length + 1) + 1 + footer.length) := by
      rw [List.get?_drop]
      rfl
    rw [← h0, hb0drop]
    rfl
  have hb0len : header.length + (m.length + 1) + 1 + footer.length < s.length := by
    obtain ⟨hh, -⟩ := List.get?_eq_some.mp hgetb0
    exact hh
  have hguardF : guardCond s footer
      (header.length + (m.length + 1) + 1 + footer.length) = false := by
    unfold guardCond
    rw [hgetb0]
    simp
  have hscan : scanLineAux
      (s.drop (header.length + (m.length + 1) + 1 + footer.length))
      (header.length + (m.length + 1) + 1 + footer.length) =
      some (header.length + (m.length + 1) + 1 + footer.length) := by
    rw [hb0drop]
    simp [scanLineAux]
  -- the detector accepts in both modes, with the body just past the footer line
  have hdetect : ∀ st : Bool, detect s header footer st =
      some ⟨header.length, header.length + (m.length + 1),
            header.length + (m.length + 1) + 1 + footer.length + 1⟩ := by
    intro st
    rw [detect_reduce s header footer header.length (header.length + (m.length + 1))
      st hpre (by simp [hguardH]) hds hde]
    cases st with
    | false =>
      rw [if_neg (by simp)]
      rw [hgetb0]
      simp
    | true =>
      rw [if_pos (by simp [hb0len])]
      rw [if_neg (by simp [hguardF])]
      simp only [hscan]
      rw [hgetb0]
      simp
  -- options normalize to the supplied pair with the function override
  have hfo : formatOptions (some ⟨loose, .absent, .arr [.str header, .str footer],
      .fn f⟩) = .ok ⟨loose, "yaml".toList, (header, footer), .fn f⟩ := rfl
  -- the raw metadata span is the leading newline plus m
  have hdata : substrLen s header.length
      ((header.length + (m.length + 1)) - header.length) = '\n' :: m := by
    unfold substrLen
    rw [show (header.length + (m.length + 1)) - header.length = m.length + 1
      by omega]
    rw [hdropH]
    exact List.take_left' (by simp)
  have htrim : jsTrim ('\n' :: m) = jsTrim m := by
    unfold jsTrim jsTrimStart
    rw [List.dropWhile_cons, if_pos (by decide)]
  -- the language-tag span is empty
  have hlang : substrLen s header.length (header.length - header.length) = [] := by
    unfold substrLen
    rw [Nat.sub_self, List.take_zero]
  have hsne : s ≠ [] := by
    rw [hs_def]
    simp
  have hstrip : stripBOM s = s := stripBOM_eq_self hbom
  have hbody : substrFrom s
      (header.length + (m.length + 1) + 1 + footer.length + 1) = b := by
    unfold substrFrom
    have s3 : List.drop 1
        (List.drop (header.length + (m.length + 1) + 1 + footer.length) s) = b := by
      rw [hb0drop]
      rfl
    rw [List.drop_drop] at s3
    exact s3
  simp only [matter, formatString, hfo, hstrip, if_neg hsne, hdetect (!loose)]
  rw [if_pos (by omega)]
  simp only [hlang, hdata, htrim, hbody]
  simp [resolveParse]

/-- C8 witness: the round trip evaluated with default delimiters, metadata
`"a: b"`, body `"BODY"` and an echoing parser function. -/
theorem claim8_witness :
    matter (some ("---".toList ++ '\n' :: ("a: b".toList ++ '\n' ::
        ("---".toList ++ '\n' :: "BODY".toList))))
        (some ⟨false, .absent, .arr [.str ("---".toList), .str ("---".toList)],
              .fn (fun s _ => JsValue.str s)⟩) emptyRegistry =
      .ok ⟨"---".toList ++ '\n' :: ("a: b".toList ++ '\n' ::
            ("---".toList ++ '\n' :: "BODY".toList)),
           JsValue.str (jsTrim ("a: b".toList)), "BODY".toList⟩ :=
  claim8_amended ("---".toList) ("---".toList) ("a: b".toList) ("BODY".toList)
    (fun s _ => JsValue.str s) false emptyRegistry (by decide) (by decide)
    (by decide) (by decide) (by decide)
